import Mathlib

/-!
Verification development for the golem-llm durable chat streaming adapter.

The Rust source is shallowly embedded:
* Rust `String` values are modelled as Lean `String`; where incremental
  buffer manipulation matters (the NDJSON frame parser) a `List Char`
  representation is used instead.
* Machine integers (`u32`, `u64`) are modelled as `Nat` with explicit
  `% 2 ^ 32` where Rust performs a truncating `as u32` cast or a wrapping
  addition.
* `serde_json::Value` is modelled by the inductive `Json` (floating point
  numbers are not needed by any modelled code path and are omitted).
* Fallible Rust code returns `Except`/`Option` in the model; a Rust
  `unreachable!` is modelled as `Except.error`.
* The host-supplied durable oplog, the WASI pollables and the underlying
  provider stream (whose implementation is outside the embedded crate
  sources) are modelled as explicit state: an append-only list of recorded
  results, a list of handle records, and a trace of batches that successive
  underlying `get_next` calls produce.
-/

/-! ## Character and list utilities (model of `str::trim`, substring search) -/

/-- Whitespace test used by the model of Rust `str::trim` (ASCII whitespace;
the modelled payloads contain no exotic Unicode whitespace). -/
def isWsChar (c : Char) : Bool :=
  c = ' ' || c = '\t' || c = '\n' || c = '\r'

/-- Model of Rust `str::trim` on a character list: drop whitespace from both
ends. -/
def trimChars (l : List Char) : List Char :=
  ((l.dropWhile isWsChar).reverse.dropWhile isWsChar).reverse

/-- Split a character list at the first occurrence of `c`: returns the part
before `c` and the part after it, or `none` when `c` does not occur. -/
def breakAt (c : Char) : List Char → Option (List Char × List Char)
  | [] => none
  | x :: xs =>
    if x = c then some ([], xs)
    else (breakAt c xs).map (fun p => (x :: p.1, p.2))

/-- Boolean substring test on character lists (model of Rust
`str::contains`). -/
def containsSub (needle haystack : List Char) : Bool :=
  match haystack with
  | [] => needle.isEmpty
  | _ :: tail => needle.isPrefixOf haystack || containsSub needle tail

/-! ## WIT data model (`golem:llm` interface types, as used by the sources) -/

inductive Role
  | user
  | assistant
  | system
  | tool
deriving DecidableEq, Repr

inductive ImageDetail
  | low
  | high
  | auto
deriving DecidableEq, Repr

structure ImageUrl where
  url : String
  detail : Option ImageDetail
deriving DecidableEq, Repr

structure ImageSource where
  data : List Nat
  mimeType : String
  detail : Option ImageDetail
deriving DecidableEq, Repr

inductive ImageReference
  | url (u : ImageUrl)
  | inline (s : ImageSource)
deriving DecidableEq, Repr

inductive ContentPart
  | text (t : String)
  | image (r : ImageReference)
deriving DecidableEq, Repr

structure Message where
  role : Role
  name : Option String
  content : List ContentPart
deriving DecidableEq, Repr

structure ToolCall where
  id : String
  name : String
  argumentsJson : String
deriving DecidableEq, Repr

structure StreamDelta where
  content : Option (List ContentPart)
  toolCalls : Option (List ToolCall)
deriving DecidableEq, Repr

inductive FinishReason
  | stop
  | length
  | toolCalls
  | contentFilter
  | error
  | other
deriving DecidableEq, Repr

structure Usage where
  inputTokens : Option Nat
  outputTokens : Option Nat
  totalTokens : Option Nat
deriving DecidableEq, Repr

structure ResponseMetadata where
  finishReason : Option FinishReason
  usage : Option Usage
  providerId : Option String
  timestamp : Option String
  providerMetadataJson : Option String
deriving DecidableEq, Repr

inductive ErrorCode
  | invalidRequest
  | authenticationFailed
  | rateLimitExceeded
  | internalError
  | unsupported
  | unknown
deriving DecidableEq, Repr

structure LlmError where
  code : ErrorCode
  message : String
  providerErrorJson : Option String
deriving DecidableEq, Repr

inductive StreamEvent
  | delta (d : StreamDelta)
  | finish (m : ResponseMetadata)
  | error (e : LlmError)
deriving DecidableEq, Repr

structure Kv where
  key : String
  value : String
deriving DecidableEq, Repr

structure ToolDefinition where
  name : String
  description : Option String
  parametersSchema : String
deriving DecidableEq, Repr

/-- Model of the WIT `config` record. The `f32` temperature is modelled as a
rational number; no modelled code path computes with it. -/
structure Config where
  model : String
  temperature : Option Rat
  maxTokens : Option Nat
  stopSequences : Option (List String)
  tools : List ToolDefinition
  toolChoice : Option String
  providerOptions : List Kv
deriving DecidableEq, Repr

/-! ## JSON values (model of `serde_json::Value` as used by `decode_message`) -/

inductive Json
  | null
  | bool (b : Bool)
  | num (n : Int)
  | str (s : String)
  | arr (xs : List Json)
  | obj (fields : List (String × Json))

/-- Model of `serde_json::Value::get` on an object (first matching key);
returns `none` on non-objects, as serde does. -/
def Json.get : Json → String → Option Json
  | .obj fields, k => (fields.find? (fun f => f.1 = k)).map (·.2)
  | _, _ => none

/-- Model of `serde_json::Value::as_bool`. -/
def Json.asBool : Json → Option Bool
  | .bool b => some b
  | _ => none

/-- Model of `serde_json::Value::as_str`. -/
def Json.asStr : Json → Option String
  | .str s => some s
  | _ => none

/-- Model of `serde_json::Value::as_u64` (defined on non-negative integer
numbers). -/
def Json.asU64 : Json → Option Nat
  | .num n => if 0 ≤ n then some n.toNat else none
  | _ => none

/-- Model of `serde_json::Value::as_array`. -/
def Json.asArr : Json → Option (List Json)
  | .arr xs => some xs
  | _ => none

def quoteChar : Char := Char.ofNat 34

def backslashChar : Char := Char.ofNat 92

/-- Escape a string for JSON output (quotes and backslashes; the modelled
payloads contain no control characters). -/
def jsonEscape (s : String) : String :=
  String.mk (s.toList.flatMap (fun c =>
    if c = quoteChar || c = backslashChar then [backslashChar, c] else [c]))

def quoteStr (s : String) : String :=
  String.mk [quoteChar] ++ jsonEscape s ++ String.mk [quoteChar]

def lbraceStr : String := String.mk [Char.ofNat 123]

def rbraceStr : String := String.mk [Char.ofNat 125]

mutual

/-- Model of `serde_json::Value::to_string` (compact serialization). -/
def Json.serialize : Json → String
  | .null => "null"
  | .bool true => "true"
  | .bool false => "false"
  | .num n => toString n
  | .str s => quoteStr s
  | .arr xs => "[" ++ Json.serializeArr xs ++ "]"
  | .obj fields => lbraceStr ++ Json.serializeObj fields ++ rbraceStr

def Json.serializeArr : List Json → String
  | [] => ""
  | [x] => Json.serialize x
  | x :: y :: rest => Json.serialize x ++ "," ++ Json.serializeArr (y :: rest)

def Json.serializeObj : List (String × Json) → String
  | [] => ""
  | [kv] => quoteStr kv.1 ++ ":" ++ Json.serialize kv.2
  | kv :: kv2 :: rest =>
    quoteStr kv.1 ++ ":" ++ Json.serialize kv.2 ++ "," ++ Json.serializeObj (kv2 :: rest)

end

/-! ## Protocol Decoder (`OllamaChatStream::decode_message`, llm-ollama/src/lib.rs)

The Rust function first parses the raw NDJSON line with
`serde_json::from_str`; the model starts from the parsed `Json` value (the
parse-error path is not the subject of any claim below). -/

/-- Model of `json.get("done").and_then(|v| v.as_bool()).unwrap_or(false)`. -/
def doneFlag (j : Json) : Bool :=
  ((j.get "done").bind Json.asBool).getD false

/-- Model of the timestamp extraction
`json.get("created_at").and_then(as_str).map(to_string).unwrap_or_default()`
used to build tool-call identifiers. -/
def timestampOf (j : Json) : String :=
  ((j.get "created_at").bind Json.asStr).getD ""

/-- Finish-event metadata built by the `done == true` branch of
`decode_message`. Note the source slip preserved faithfully here: the
`output_tokens` field of `Usage` is populated from `input_tokens`. The `as
u32` casts are modelled as `% 2 ^ 32`. -/
def finishMeta (j : Json) : ResponseMetadata :=
  let inputTokens := (((j.get "prompt_eval_count").bind Json.asU64).getD 0) % 2 ^ 32
  let outputTokens := (((j.get "eval_count").bind Json.asU64).getD 0) % 2 ^ 32
  let usage : Usage :=
    { inputTokens := some inputTokens
      outputTokens := some inputTokens
      totalTokens := some ((inputTokens + outputTokens) % 2 ^ 32) }
  let totalDuration := ((j.get "total_duration").bind Json.asU64).getD 0
  let loadDuration := ((j.get "load_duration").bind Json.asU64).getD 0
  let promptEvalDuration := ((j.get "prompt_eval_duration").bind Json.asU64).getD 0
  let evalDuration := ((j.get "eval_duration").bind Json.asU64).getD 0
  let context := ((j.get "context").getD Json.null)
  let providerMetadata := Json.serialize (Json.obj
    [("context", context),
     ("eval_duration", Json.num evalDuration),
     ("load_duration", Json.num loadDuration),
     ("prompt_eval_duration", Json.num promptEvalDuration),
     ("total_duration", Json.num totalDuration)])
  { finishReason := some .stop
    usage := some usage
    providerId := some "ollama"
    timestamp := (j.get "created_at").bind Json.asStr
    providerMetadataJson := some providerMetadata }

/-- Model of the tool-call extraction loop of `decode_message`: for every
entry of `message.tool_calls` that has a `function` field, one `ToolCall` is
produced, with the identifier `"ollama-" ++ created_at` and the provider
arguments re-serialized. -/
def decodeToolCalls (ts : String) (calls : List Json) : List ToolCall :=
  calls.filterMap (fun call =>
    (call.get "function").map (fun f =>
      { id := "ollama-" ++ ts
        name := ((f.get "name").bind Json.asStr).getD ""
        argumentsJson := Json.serialize ((f.get "arguments").getD (Json.obj [])) }))

/-- Model of the content extraction of `decode_message`: a single text part
when `message.content` is a non-empty string. -/
def decodeContent (m : Json) : List ContentPart :=
  match (m.get "content").bind Json.asStr with
  | some t => if t = "" then [] else [ContentPart.text t]
  | none => []

/-- Model of `OllamaChatStream::decode_message` after JSON parsing. -/
def decodeMessage (j : Json) : Option StreamEvent :=
  if doneFlag j then
    some (.finish (finishMeta j))
  else
    match j.get "message" with
    | some m =>
      let content := decodeContent m
      let toolCalls := decodeToolCalls (timestampOf j)
        (((m.get "tool_calls").bind Json.asArr).getD [])
      some (.delta
        { content := if content.isEmpty then none else some content
          toolCalls := if toolCalls.isEmpty then none else some toolCalls })
    | none => none

/-- Helper projecting the tool calls out of a decoded event. -/
def toolCallsOf : Option StreamEvent → List ToolCall
  | some (.delta d) => d.toolCalls.getD []
  | _ => []

/-! ## Continuation prompt (`OllamaComponent::retry_prompt`, llm-ollama/src/lib.rs) -/

/-- Serialization of a tool-call fragment as inline tagged text, as in the
`format!` call of `retry_prompt`. -/
def toolCallTag (tc : ToolCall) : ContentPart :=
  ContentPart.text
    ("<tool-call id=\"" ++ tc.id ++ "\" name=\"" ++ tc.name ++
      "\" arguments=\"" ++ tc.argumentsJson ++ "\"/>")

def interruptedNote : String :=
  "You were asked the same question previously, but the response was interrupted before completion. Please continue your response from where you left off. Do not include the part of the response that was already seen."

def originalQuestionNote : String := "Here is the original question:"

def partialResponseNote : String := "Here is the partial response that was successfully received:"

/-- Model of the accumulation loop over `partial_result` in `retry_prompt`:
for each delta, first its content parts are appended, then its tool calls
serialized as tagged text. -/
def partialResultAsContent (partialResult : List StreamDelta) : List ContentPart :=
  partialResult.foldl
    (fun acc delta =>
      acc ++ delta.content.getD [] ++ (delta.toolCalls.getD []).map toolCallTag)
    []

/-- Model of `OllamaComponent::retry_prompt` (the provider override used by
the durable stream for this component). -/
def retryPrompt (originalMessages : List Message) (partialResult : List StreamDelta) :
    List Message :=
  [{ role := .system, name := none, content := [.text interruptedNote] },
   { role := .user, name := none, content := [.text originalQuestionNote] }] ++
  originalMessages ++
  [{ role := .user, name := none,
     content := .text partialResponseNote :: partialResultAsContent partialResult }]

/-- Continuation prompt shape as the specification words it: system note,
user note introducing the original question, the original messages verbatim,
then a user note followed by the partial content where each delta
contributes its content parts and its tool calls as inline tagged text, in
delta order. This definition follows the specification text and is compared
against `retryPrompt`, which is translated from the source. -/
def specContinuationPrompt (originalMessages : List Message)
    (partialResult : List StreamDelta) : List Message :=
  [{ role := .system, name := none, content := [.text interruptedNote] },
   { role := .user, name := none, content := [.text originalQuestionNote] }] ++
  originalMessages ++
  [{ role := .user, name := none,
     content := .text partialResponseNote ::
       partialResult.flatMap
         (fun delta =>
           delta.content.getD [] ++ (delta.toolCalls.getD []).map toolCallTag) }]

/-! ## Transport Session construction (`check_response` / `EventSource::new`,
llm/llm/src/event_source/mod.rs) -/

/-- Model of an HTTP response as seen by `check_response`: status code,
header map and the raw body bytes. The header map is modelled with
lowercased header names, matching how the reqwest header map stores them. -/
structure HttpResponse where
  status : Nat
  headers : List (String × String)
  body : List Nat
deriving DecidableEq, Repr

/-- Lookup of the `content-type` header. -/
def contentTypeHeader (r : HttpResponse) : Option String :=
  (r.headers.find? (fun h => h.1 = "content-type")).map (·.2)

/-- Model of the errors produced during session construction (carrying the
offending value and the response, as the Rust `Error` enum does). -/
inductive EsError
  | invalidStatusCode (status : Nat) (response : HttpResponse)
  | invalidContentType (value : String) (response : HttpResponse)
deriving DecidableEq, Repr

/-- Token-character test of the mime grammar (enough to accept every
well-formed registered type and reject separators). -/
def isMimeTokenChar (c : Char) : Bool :=
  c.isAlphanum || c = '-' || c = '+' || c = '.' || c = '_' || c = '!' ||
    c = '#' || c = '$' || c = '&' || c = '^'

/-- Model of `s.parse::<mime::Mime>()` restricted to what `check_response`
observes: the essence (type, subtype) with parameters stripped and both
parts lowercased; parsing fails when either part is empty or contains a
non-token character. -/
def parseMime (s : String) : Option (List Char × List Char) :=
  let essence := trimChars (s.toList.takeWhile (fun c => c ≠ ';'))
  match breakAt '/' essence with
  | some (t, sub) =>
    if t ≠ [] && sub ≠ [] && t.all isMimeTokenChar && sub.all isMimeTokenChar then
      some (t.map Char.toLower, sub.map Char.toLower)
    else none
  | none => none

/-- Content-type acceptance test of `check_response`: the parsed mime type
is `text/event-stream`, or its subtype contains `ndjson`. -/
def acceptableContentType (v : String) : Bool :=
  match parseMime v with
  | some (t, sub) =>
    (t = "text".toList && sub = "event-stream".toList) ||
      containsSub "ndjson".toList sub
  | none => false

/-- Model of `check_response`: the status must be exactly 200 (`StatusCode::OK`),
then the `content-type` header must be present and acceptable; only the
status and the headers are ever inspected, never the body. -/
def checkResponse (r : HttpResponse) : Except EsError HttpResponse :=
  if r.status ≠ 200 then
    .error (.invalidStatusCode r.status r)
  else
    match contentTypeHeader r with
    | none => .error (.invalidContentType "" r)
    | some v =>
      if acceptableContentType v then .ok r
      else .error (.invalidContentType v r)

/-- The two Frame Parser variants a Transport Session can own. -/
inductive FrameParserKind
  | ndjson
  | sse
deriving DecidableEq, Repr

/-- Model of a freshly constructed `EventSource`: the chosen frame parser
variant, the validated response, and the closed flag. -/
structure EventSourceModel where
  parserKind : FrameParserKind
  response : HttpResponse
  isClosed : Bool
deriving DecidableEq, Repr

/-- Model of `EventSource::new`: validate the response with `check_response`,
then choose the parser variant by a raw substring test for `ndjson` on the
content-type header value. -/
def eventSourceNew (r : HttpResponse) : Except EsError EventSourceModel :=
  match checkResponse r with
  | .error e => .error e
  | .ok r2 =>
    let kind :=
      if containsSub "ndjson".toList (((contentTypeHeader r2).getD "").toList) then
        FrameParserKind.ndjson
      else
        FrameParserKind.sse
    .ok { parserKind := kind, response := r2, isClosed := false }

/-- Outcome classification of session construction, used to express that the
decision never depends on the body bytes. -/
inductive EsOutcome
  | success (kind : FrameParserKind)
  | badStatus (status : Nat)
  | badContentType (value : String)
deriving DecidableEq, Repr

def esOutcome : Except EsError EventSourceModel → EsOutcome
  | .ok es => .success es.parserKind
  | .error (.invalidStatusCode st _) => .badStatus st
  | .error (.invalidContentType v _) => .badContentType v

/-! ## NDJSON Frame Parser (`NdJsonStream`, llm/llm/src/event_source/ndjson_stream.rs)

The underlying `Utf8Stream` (whose source file is outside the embedded
sources) is modelled as the list of text chunks it will successively yield
before reporting end-of-stream; decoding errors and `Pending` results are
outside the scope of the claims below. Rust strings are `List Char` here. -/

/-- Message Event produced by a frame parser (`MessageEvent`), with `List
Char` for the string fields. -/
structure MsgEvent where
  event : List Char
  data : List Char
  id : List Char
  retry : Option Nat
deriving DecidableEq, Repr

inductive NdState
  | notStarted
  | started
  | terminated
deriving DecidableEq, Repr

/-- State of the NDJSON parser: internal buffer, lifecycle state, last event
id, and the remaining chunks of the underlying text stream. -/
structure NdJson where
  buffer : List Char
  state : NdState
  lastEventId : List Char
  input : List (List Char)
deriving DecidableEq, Repr

/-- Model of `try_parse_line`: if the buffer holds a `\n`, the first line is
drained (including the newline) and returned trimmed, unless it trims to
nothing (blank lines are skipped but still drained). Returns the optional
line together with the new buffer. -/
def tryParseLine (buffer : List Char) : Option (List Char) × List Char :=
  match breakAt '\n' buffer with
  | none => (none, buffer)
  | some (before, rest) =>
    let line := trimChars before
    if line = [] then (none, rest) else (some line, rest)

def mkNdEvent (data lastId : List Char) : MsgEvent :=
  { event := "message".toList, data := data, id := lastId, retry := none }

/-- Model of the chunk-reading loop inside `NdJsonStream::poll_next`: empty
chunks are skipped; each non-empty chunk is appended to the buffer and a
line parse is attempted; on end-of-stream the parser terminates, salvaging a
non-whitespace buffer remainder as a final event. Returns the optional
event, the new buffer, the remaining input and the new state. -/
def ndReadLoop (lastId buffer : List Char) :
    List (List Char) → Option MsgEvent × List Char × List (List Char) × NdState
  | [] =>
    let remainder := trimChars buffer
    if remainder = [] then (none, buffer, [], .terminated)
    else (some (mkNdEvent remainder lastId), [], [], .terminated)
  | chunk :: chunks =>
    if chunk = [] then ndReadLoop lastId buffer chunks
    else
      match tryParseLine (buffer ++ chunk) with
      | (some line, rest) => (some (mkNdEvent line lastId), rest, chunks, .started)
      | (none, rest) => ndReadLoop lastId rest chunks

/-- Model of `NdJsonStream::poll_next` (with the `Pending` and
transport-error outcomes out of scope): returns the next Message Event, or
`none` for stream termination. -/
def ndPollNext (s : NdJson) : Option MsgEvent × NdJson :=
  match tryParseLine s.buffer with
  | (some line, rest) =>
    (some (mkNdEvent line s.lastEventId), { s with buffer := rest })
  | (none, rest) =>
    if s.state = .terminated then (none, { s with buffer := rest })
    else
      match ndReadLoop s.lastEventId rest s.input with
      | (ev, buffer, input, st) =>
        (ev, { buffer := buffer, state := st, lastEventId := s.lastEventId,
               input := input })

/-- Termination measure for draining the parser: total buffered and
unconsumed characters plus the number of unconsumed chunks. -/
def ndMeasure (s : NdJson) : Nat :=
  s.buffer.length + (s.input.map List.length).sum + s.input.length

/-- Fuel-bounded event collection: repeatedly poll until the parser reports
termination (or fuel runs out). -/
def ndDrainF : Nat → NdJson → List (List Char)
  | 0, _ => []
  | fuel + 1, s =>
    match ndPollNext s with
    | (some e, s2) => e.data :: ndDrainF fuel s2
    | (none, _) => []

/-- All events the parser produces until termination (the fuel
`ndMeasure s + 1` is proved sufficient below). -/
def ndDrain (s : NdJson) : List (List Char) :=
  ndDrainF (ndMeasure s + 1) s

/-- Initial parser state over a list of input chunks (`NdJsonStream::new`). -/
def ndInit (chunks : List (List Char)) : NdJson :=
  { buffer := [], state := .notStarted, lastEventId := [], input := chunks }

/-- Newline-joined lines without a trailing newline. -/
def joinNl : List (List Char) → List Char
  | [] => []
  | [l] => l
  | l :: l2 :: rest => l ++ '\n' :: joinNl (l2 :: rest)

/-! ## Durable Stream state machine (`DurableChatStream`, llm/src/durability.rs)

The host durability interface and the provider stream are modelled
explicitly:
* the underlying provider chat stream is the trace of results its
  successive `get_next` calls produce (`LiveTrace`);
* the provider itself (`ExtendedGuest::unwrapped_stream`) is a function from
  prompt and config to such a trace (`BackendModel`);
* `Durability::persist_infallible` appends to `oplog`;
* `Durability::is_live` is false exactly while `replayQueue` (the recorded
  entries not yet replayed) is non-empty, and `replay_infallible` pops from
  it;
* a `LazyInitializedPollable` is a record of its identifier and the live
  call it has been attached to, if any (`none` until `set` is called). -/

/-- Trace of batches the successive `get_next` calls of one underlying
provider stream return. An exhausted trace keeps returning `none`. -/
def LiveTrace := List (Option (List StreamEvent))
deriving DecidableEq, Repr

/-- Model of the provider: `unwrapped_stream` as a function from the request
to the trace of the created stream. -/
def BackendModel := List Message → Config → LiveTrace

/-- Model of one consuming `get_next` call on the underlying provider
stream. -/
def traceNext (t : LiveTrace) : Option (List StreamEvent) × LiveTrace :=
  match t with
  | [] => (none, [])
  | r :: rest => (r, rest)

/-- Model of a `LazyInitializedPollable` exposed to the caller: its identity
and the index of the live backend call it is currently attached to. -/
structure LazyPollable where
  pid : Nat
  target : Option Nat
deriving DecidableEq, Repr

/-- The `DurableChatStreamState` enum. -/
inductive DState
  | live (stream : LiveTrace) (pollables : List LazyPollable)
  | replay (originalMessages : List Message) (config : Config)
      (pollables : List LazyPollable) (partialResult : List StreamDelta)
      (finished : Bool)
deriving DecidableEq, Repr

/-- The whole observable world of one `DurableChatStream`: its state, the
durable-log entries appended by this stream (`oplog`), the recorded entries
not yet replayed (`replayQueue`), the list of backend calls issued so far
(prompt and config of each), a counter for fresh pollable identifiers and
the cached `blocking_get_next` subscription. -/
structure DWorld where
  state : DState
  oplog : List (Option (List StreamEvent))
  replayQueue : List (Option (List StreamEvent))
  calls : List (List Message × Config)
  nextPid : Nat
  hasSubscription : Bool
deriving DecidableEq, Repr

/-- Replay bookkeeping of `get_next` (lines 351-371 of durability.rs): every
replayed `Delta` is appended to `partial_result`; a replayed `Finish` or
`Error` sets `finished`. -/
def applyReplay (partialResult : List StreamDelta) (finished : Bool) :
    Option (List StreamEvent) → List StreamDelta × Bool
  | none => (partialResult, finished)
  | some events =>
    events.foldl
      (fun acc ev =>
        match ev with
        | .delta d => (acc.1 ++ [d], acc.2)
        | .finish _ => (acc.1, true)
        | .error _ => (acc.1, true))
      (partialResult, finished)

/-- Model of `DurableChatStream::get_next`. `Except.error` marks the
`unreachable!` of a live-state stream observed while the oplog is still
replaying. -/
def dGetNext (b : BackendModel) (w : DWorld) :
    Except Unit (Option (List StreamEvent) × DWorld) :=
  match w.replayQueue with
  | [] =>
    -- durability.is_live(): no recorded entries remain
    match w.state with
    | .live stream pollables =>
      match traceNext stream with
      | (result, rest) =>
        .ok (result, { w with state := .live rest pollables,
                              oplog := w.oplog ++ [result] })
    | .replay originalMessages config pollables partialResult finished =>
      if finished then
        .ok (none, w)
      else
        let prompt := retryPrompt originalMessages partialResult
        let streamId := w.calls.length
        match traceNext (b prompt config) with
        | (firstLiveResult, rest) =>
          .ok (firstLiveResult,
            { w with
              state := .live rest (pollables.map (fun p => { p with target := some streamId })),
              oplog := w.oplog ++ [firstLiveResult],
              calls := w.calls ++ [(prompt, config)] })
  | recorded :: queueRest =>
    match w.state with
    | .live _ _ => .error ()
    | .replay originalMessages config pollables partialResult finished =>
      match applyReplay partialResult finished recorded with
      | (partial2, finished2) =>
        .ok (recorded,
          { w with
            replayQueue := queueRest,
            state := .replay originalMessages config pollables partial2 finished2 })

/-- Model of `DurableChatStream::subscribe`: in live state the underlying
stream is subscribed directly; in replay state a fresh lazy pollable is
created and registered. -/
def dSubscribe (w : DWorld) : DWorld :=
  match w.state with
  | .live _ _ => { w with hasSubscription := true }
  | .replay originalMessages config pollables partialResult finished =>
    { w with
      state := .replay originalMessages config
        (pollables ++ [{ pid := w.nextPid, target := none }]) partialResult finished,
      nextPid := w.nextPid + 1,
      hasSubscription := true }

/-- The retry loop of `blocking_get_next`: call `get_next` until it returns
a batch; `none` results make the loop continue. Fuel bounds the number of
iterations; a `.ok none` result means the loop was still running when fuel
ran out (in the source the loop blocks on the subscription instead). -/
def dBlockingLoop (b : BackendModel) :
    Nat → DWorld → Except Unit (Option (List StreamEvent × DWorld))
  | 0, _ => .ok none
  | fuel + 1, w =>
    match dGetNext b w with
    | .error e => .error e
    | .ok (some events, w2) => .ok (some (events, w2))
    | .ok (none, w2) => dBlockingLoop b fuel w2

/-- Model of `DurableChatStream::blocking_get_next`: create the subscription
if it does not exist yet, then loop. -/
def dBlockingGetNext (b : BackendModel) (fuel : Nat) (w : DWorld) :
    Except Unit (Option (List StreamEvent × DWorld)) :=
  dBlockingLoop b fuel (if w.hasSubscription then w else dSubscribe w)

/-- Specification-modelled property of the underlying provider stream (the
`LlmChatStream` implementation is not part of the embedded sources): when a
poll cycle produces a batch, the batch is non-empty — an empty terminal
state is signaled by a `Finish`/`Error` event inside the batch, never by an
empty batch. -/
def goodTrace (t : List (Option (List StreamEvent))) : Bool :=
  t.all (fun r =>
    match r with
    | some events => !events.isEmpty
    | none => true)

/-- A world whose pending live trace and whose recorded-but-unreplayed
entries all satisfy the non-empty-batch property. -/
def goodWorld (w : DWorld) : Bool :=
  goodTrace w.replayQueue &&
    (match w.state with
     | .live stream _ => goodTrace stream
     | .replay _ _ _ _ _ => true)

/-! ## Concrete inputs used by witnesses and counterexamples -/

def c10payload : Json :=
  Json.obj
    [("done", Json.bool true),
     ("created_at", Json.str "2024-05-05T10:00:00Z"),
     ("message", Json.obj
       [("content", Json.str "discarded text"),
        ("tool_calls", Json.arr
          [Json.obj [("function", Json.obj [("name", Json.str "f")])]])])]

def c5payload : Json :=
  Json.obj [("message", Json.obj [("content", Json.str "")])]

def c7call (n : String) : Json :=
  Json.obj [("function", Json.obj [("name", Json.str n), ("arguments", Json.obj [])])]

def c7payload : Json :=
  Json.obj
    [("created_at", Json.str "2024-05-05T10:00:00Z"),
     ("message", Json.obj
       [("content", Json.str ""),
        ("tool_calls", Json.arr [c7call "first_tool", c7call "second_tool"])])]

def sampleDelta : StreamDelta := { content := some [.text "partial text"], toolCalls := none }

def sampleEvent : StreamEvent := .delta sampleDelta

def sampleMessage : Message := { role := .user, name := none, content := [.text "question"] }

def sampleConfig : Config :=
  { model := "llama3", temperature := none, maxTokens := none, stopSequences := none,
    tools := [], toolChoice := none, providerOptions := [] }

def c1world : DWorld :=
  { state := .live [some [sampleEvent]] [], oplog := [], replayQueue := [],
    calls := [], nextPid := 0, hasSubscription := false }

def nullBackend : BackendModel := fun _ _ => []

def c2pollable : LazyPollable := { pid := 0, target := none }

def c2extraDelta : StreamDelta := { content := some [.text "more"], toolCalls := none }

def c2backend : BackendModel := fun _ _ => [some [StreamEvent.delta c2extraDelta], none]

def c2world : DWorld :=
  { state := .replay [sampleMessage] sampleConfig [c2pollable]
      [sampleDelta] false,
    oplog := [], replayQueue := [], calls := [], nextPid := 1, hasSubscription := true }

def c4world : DWorld :=
  { state := .replay [sampleMessage] sampleConfig [] [sampleDelta] true,
    oplog := [], replayQueue := [], calls := [], nextPid := 0, hasSubscription := false }

def joinNlT : List (List Char) → List Char
  | [] => []
  | l :: ls => l ++ '\n' :: joinNlT ls

/-! ## Theorems -/

lemma partialFoldAux (l : List StreamDelta) (acc : List ContentPart) :
    l.foldl
      (fun acc delta =>
        acc ++ delta.content.getD [] ++ (delta.toolCalls.getD []).map toolCallTag)
      acc =
      acc ++ l.flatMap
        (fun delta => delta.content.getD [] ++ (delta.toolCalls.getD []).map toolCallTag) := by
  induction l generalizing acc with
  | nil => simp
  | cons d rest ih =>
    rw [List.foldl_cons, ih]
    simp [List.append_assoc]

/-- Claim C3: the continuation-prompt function is deterministic (it is a
pure function of its two arguments) and produces exactly the system
interruption note, the user note introducing the original question, the
original messages verbatim in order, and a user note followed by each
content part from each delta in order together with each tool-call fragment
serialized as inline tagged text. -/
theorem claim_C3 (originalMessages : List Message) (partialResult : List StreamDelta) :
    retryPrompt originalMessages partialResult =
      specContinuationPrompt originalMessages partialResult := by
  unfold retryPrompt specContinuationPrompt partialResultAsContent
  rw [partialFoldAux]
  simp

/-- Claim C10: whenever the `done` flag of a payload is true, the Protocol
Decoder returns exactly a `Finish` event carrying the metadata extracted
from that payload; message content and tool-call fragments in the same
payload are never turned into a `Delta`. -/
theorem claim_C10 (j : Json) (h : doneFlag j = true) :
    decodeMessage j = some (.finish (finishMeta j)) := by
  simp [decodeMessage, h]

theorem claim_C10_witness :
    doneFlag c10payload = true ∧
      decodeMessage c10payload = some (.finish (finishMeta c10payload)) :=
  ⟨rfl, claim_C10 c10payload rfl⟩

/-- Counterexample to claim C5 as stated: on a payload whose message content
is the empty string and which carries no tool-call fragments, the decoder
does return a `Delta` event (with both fields `none`), not zero events. -/
theorem claim_C5_counterexample :
    decodeMessage c5payload =
        some (.delta { content := none, toolCalls := none }) ∧
      decodeMessage c5payload ≠ none := by
  refine ⟨rfl, ?_⟩
  intro h
  rw [show decodeMessage c5payload =
    some (.delta { content := none, toolCalls := none }) from rfl] at h
  exact Option.noConfusion h

/-- Claim C5 as amended: on a payload that is not marked done, whose message
content is the empty string and which carries no tool-call fragments, the
decoder emits a `Delta` event whose content and tool-call fields are both
`none` — no empty `ContentPart` is synthesized, but the event itself is not
suppressed. -/
theorem claim_C5_amended (j m : Json)
    (hdone : doneFlag j = false)
    (hmsg : j.get "message" = some m)
    (hcontent : (m.get "content").bind Json.asStr = some "")
    (htools : ((m.get "tool_calls").bind Json.asArr).getD [] = []) :
    decodeMessage j = some (.delta { content := none, toolCalls := none }) := by
  simp [decodeMessage, hdone, hmsg, decodeContent, hcontent, decodeToolCalls, htools]

theorem claim_C5_amended_witness :
    (doneFlag c5payload = false ∧
      c5payload.get "message" = some (Json.obj [("content", Json.str "")]) ∧
      ((Json.obj [("content", Json.str "")]).get "content").bind Json.asStr = some "" ∧
      (((Json.obj [("content", Json.str "")]).get "tool_calls").bind Json.asArr).getD [] = []) ∧
      decodeMessage c5payload = some (.delta { content := none, toolCalls := none }) :=
  ⟨⟨rfl, rfl, rfl, rfl⟩, claim_C5_amended c5payload _ rfl rfl rfl rfl⟩

/-- Counterexample to claim C7 as stated: a payload with two tool-call
fragments yields two `ToolCall` values whose identifiers are identical (both
are `ollama-` followed by the response timestamp; there is no emission-order
component), hence not pairwise distinct. -/
theorem claim_C7_counterexample :
    (toolCallsOf (decodeMessage c7payload)).map ToolCall.id =
        ["ollama-2024-05-05T10:00:00Z", "ollama-2024-05-05T10:00:00Z"] ∧
      ¬ List.Pairwise (fun a b => a ≠ b)
        ((toolCallsOf (decodeMessage c7payload)).map ToolCall.id) := by
  refine ⟨rfl, ?_⟩
  rw [show (toolCallsOf (decodeMessage c7payload)).map ToolCall.id =
    ["ollama-2024-05-05T10:00:00Z", "ollama-2024-05-05T10:00:00Z"] from rfl]
  decide

/-- Claim C7 as amended: every tool-call fragment of a payload receives the
same identifier, `ollama-` followed by the response timestamp (no
emission-order component), and the arguments string of each fragment is the
provider JSON re-serialized (`Json.serialize` of the provider value),
not reinterpreted. -/
theorem claim_C7_amended (j m : Json) (calls : List Json)
    (hdone : doneFlag j = false)
    (hmsg : j.get "message" = some m)
    (htools : (m.get "tool_calls").bind Json.asArr = some calls) :
    toolCallsOf (decodeMessage j) =
        calls.filterMap (fun call =>
          (call.get "function").map (fun f =>
            { id := "ollama-" ++ timestampOf j
              name := ((f.get "name").bind Json.asStr).getD ""
              argumentsJson := Json.serialize ((f.get "arguments").getD (Json.obj [])) })) ∧
      ∀ tc ∈ toolCallsOf (decodeMessage j), tc.id = "ollama-" ++ timestampOf j := by
  have hmain : toolCallsOf (decodeMessage j) = decodeToolCalls (timestampOf j) calls := by
    simp only [decodeMessage, hdone, Bool.false_eq_true, if_false, hmsg]
    cases hdec : decodeToolCalls (timestampOf j) calls with
    | nil => simp [toolCallsOf, hdec, htools]
    | cons a l => simp [toolCallsOf, hdec, htools]
  refine ⟨by rw [hmain]; rfl, ?_⟩
  rw [hmain]
  intro tc htc
  rcases List.mem_filterMap.mp htc with ⟨call, _, hcall⟩
  rcases Option.map_eq_some'.mp hcall with ⟨f, _, hf⟩
  rw [← hf]

theorem claim_C7_amended_witness :
    (doneFlag c7payload = false ∧
      c7payload.get "message" = some (Json.obj
        [("content", Json.str ""),
         ("tool_calls", Json.arr [c7call "first_tool", c7call "second_tool"])]) ∧
      ((Json.obj
        [("content", Json.str ""),
         ("tool_calls", Json.arr [c7call "first_tool", c7call "second_tool"])]).get
          "tool_calls").bind Json.asArr = some [c7call "first_tool", c7call "second_tool"]) ∧
      (∀ tc ∈ toolCallsOf (decodeMessage c7payload),
        tc.id = "ollama-" ++ timestampOf c7payload) :=
  ⟨⟨rfl, rfl, rfl⟩,
    (claim_C7_amended c7payload _ [c7call "first_tool", c7call "second_tool"]
      rfl rfl rfl).2⟩

/-- Claim C8: session construction rejects any status other than the single
accepted value 200 with `InvalidStatusCode`, rejects a missing or
unacceptable content-type (not `text/event-stream` and subtype not
containing `ndjson`) with `InvalidContentType`, and its outcome never
depends on the response body (no body byte is read or parsed). -/
theorem claim_C8 (st : Nat) (hdrs : List (String × String)) (bd bd2 : List Nat) :
    (st ≠ 200 →
      eventSourceNew ⟨st, hdrs, bd⟩ = .error (.invalidStatusCode st ⟨st, hdrs, bd⟩)) ∧
    (st = 200 → contentTypeHeader ⟨st, hdrs, bd⟩ = none →
      eventSourceNew ⟨st, hdrs, bd⟩ = .error (.invalidContentType "" ⟨st, hdrs, bd⟩)) ∧
    (∀ v, st = 200 → contentTypeHeader ⟨st, hdrs, bd⟩ = some v →
      acceptableContentType v = false →
      eventSourceNew ⟨st, hdrs, bd⟩ = .error (.invalidContentType v ⟨st, hdrs, bd⟩)) ∧
    esOutcome (eventSourceNew ⟨st, hdrs, bd⟩) = esOutcome (eventSourceNew ⟨st, hdrs, bd2⟩) := by
  refine ⟨?_, ?_, ?_, ?_⟩
  · intro h
    simp [eventSourceNew, checkResponse, h]
  · intro h hnone
    subst h
    simp [eventSourceNew, checkResponse, hnone]
  · intro v h hsome hbad
    subst h
    simp [eventSourceNew, checkResponse, hsome, hbad]
  · by_cases h : st = 200
    · subst h
      cases hcth : contentTypeHeader ⟨200, hdrs, bd⟩ with
      | none =>
        have hcth2 : contentTypeHeader ⟨200, hdrs, bd2⟩ = none := hcth
        simp [eventSourceNew, checkResponse, hcth, hcth2, esOutcome]
      | some v =>
        have hcth2 : contentTypeHeader ⟨200, hdrs, bd2⟩ = some v := hcth
        by_cases hacc : acceptableContentType v
        · simp [eventSourceNew, checkResponse, hcth, hcth2, hacc, esOutcome]
        · simp [eventSourceNew, checkResponse, hcth, hcth2, hacc, esOutcome]
    · simp [eventSourceNew, checkResponse, h, esOutcome]

theorem claim_C8_witness :
    ((500 ≠ 200) ∧
      eventSourceNew ⟨500, [("content-type", "text/event-stream")], [7]⟩ =
        .error (.invalidStatusCode 500 ⟨500, [("content-type", "text/event-stream")], [7]⟩)) ∧
    ((contentTypeHeader ⟨200, [("content-type", "text/plain")], [7]⟩ = some "text/plain" ∧
        acceptableContentType "text/plain" = false) ∧
      eventSourceNew ⟨200, [("content-type", "text/plain")], [7]⟩ =
        .error (.invalidContentType "text/plain" ⟨200, [("content-type", "text/plain")], [7]⟩)) :=
  ⟨⟨by decide,
    (claim_C8 500 [("content-type", "text/event-stream")] [7] [7]).1 (by decide)⟩,
   ⟨⟨rfl, by decide⟩,
    (claim_C8 200 [("content-type", "text/plain")] [7] [7]).2.2.1 "text/plain" rfl rfl
      (by decide)⟩⟩

/-- Claim C1: a `get_next` call on a durable stream in live state returns
some result and the post-state durable log is the pre-state log with exactly
that result appended — the result is recorded before it is handed back. -/
theorem claim_C1 (b : BackendModel) (w : DWorld) (stream : LiveTrace)
    (pollables : List LazyPollable)
    (hstate : w.state = .live stream pollables) (hq : w.replayQueue = []) :
    ∃ result w2, dGetNext b w = .ok (result, w2) ∧ w2.oplog = w.oplog ++ [result] := by
  rcases htr : traceNext stream with ⟨result, rest⟩
  refine ⟨result, { w with state := .live rest pollables, oplog := w.oplog ++ [result] },
    ?_, ?_⟩
  · simp [dGetNext, hq, hstate, htr]
  · simp

theorem claim_C1_witness :
    (c1world.state = .live [some [sampleEvent]] [] ∧ c1world.replayQueue = []) ∧
      ∃ result w2, dGetNext nullBackend c1world = .ok (result, w2) ∧
        w2.oplog = c1world.oplog ++ [result] :=
  ⟨⟨rfl, rfl⟩, claim_C1 nullBackend c1world [some [sampleEvent]] [] rfl rfl⟩

/-- Claim C2: a `get_next` call on a durable stream in replay state with
`finished = false` and an exhausted replay log issues exactly one new
backend call whose prompt is the continuation prompt built from the original
messages and the accumulated partial result, re-registers every previously
issued readiness handle against that new live call, transitions the state to
live over the rest of the new live stream, records the first live result,
and returns exactly that first live result. -/
theorem claim_C2 (b : BackendModel) (w : DWorld) (orig : List Message) (cfg : Config)
    (pb : List LazyPollable) (pr : List StreamDelta)
    (hstate : w.state = .replay orig cfg pb pr false) (hq : w.replayQueue = []) :
    dGetNext b w = .ok ((traceNext (b (retryPrompt orig pr) cfg)).1,
      { w with
        state := .live (traceNext (b (retryPrompt orig pr) cfg)).2
          (pb.map (fun p => { p with target := some w.calls.length })),
        oplog := w.oplog ++ [(traceNext (b (retryPrompt orig pr) cfg)).1],
        calls := w.calls ++ [(retryPrompt orig pr, cfg)] }) := by
  rcases htr : traceNext (b (retryPrompt orig pr) cfg) with ⟨first, rest⟩
  simp [dGetNext, hq, hstate, htr]

theorem claim_C2_witness :
    (c2world.state = .replay [sampleMessage] sampleConfig [c2pollable]
        [sampleDelta] false ∧
      c2world.replayQueue = []) ∧
      dGetNext c2backend c2world =
        .ok ((traceNext (c2backend (retryPrompt [sampleMessage] [sampleDelta]) sampleConfig)).1,
          { c2world with
            state := .live
              (traceNext (c2backend (retryPrompt [sampleMessage] [sampleDelta]) sampleConfig)).2
              ([c2pollable].map
                (fun p => { p with target := some c2world.calls.length })),
            oplog := c2world.oplog ++
              [(traceNext (c2backend (retryPrompt [sampleMessage] [sampleDelta]) sampleConfig)).1],
            calls := c2world.calls ++ [(retryPrompt [sampleMessage] [sampleDelta], sampleConfig)] }) :=
  ⟨⟨rfl, rfl⟩,
    claim_C2 c2backend c2world [sampleMessage] sampleConfig [c2pollable]
      [sampleDelta] rfl rfl⟩

lemma applyReplay_preserves_true (pr : List StreamDelta)
    (r : Option (List StreamEvent)) : (applyReplay pr true r).2 = true := by
  cases r with
  | none => rfl
  | some events =>
    suffices h : ∀ acc : List StreamDelta × Bool, acc.2 = true →
        (events.foldl
          (fun acc ev =>
            match ev with
            | .delta d => (acc.1 ++ [d], acc.2)
            | .finish _ => (acc.1, true)
            | .error _ => (acc.1, true)) acc).2 = true by
      exact h (pr, true) rfl
    intro acc hacc
    induction events generalizing acc with
    | nil => exact hacc
    | cons ev rest ih =>
      cases ev with
      | delta d => exact ih _ hacc
      | finish m => exact ih _ rfl
      | error e => exact ih _ rfl

/-- Claim C4: on a durable stream in replay state with `finished = true`,
once the recorded entries are exhausted every `get_next` call returns the
no-events result and leaves the world untouched (in particular it issues no
backend call), and any `get_next` call whatsoever keeps `finished` at true
and issues no backend call. -/
theorem claim_C4 (b : BackendModel) (w : DWorld) (orig : List Message) (cfg : Config)
    (pb : List LazyPollable) (pr : List StreamDelta)
    (hstate : w.state = .replay orig cfg pb pr true) :
    (w.replayQueue = [] → dGetNext b w = .ok (none, w)) ∧
    (∀ r w2, dGetNext b w = .ok (r, w2) → w2.calls = w.calls ∧
      ∃ pr2, w2.state = .replay orig cfg pb pr2 true) := by
  cases w with
  | mk ws wo wq wc wn wh =>
    dsimp only at hstate
    subst hstate
    constructor
    · intro hq
      dsimp only at hq
      subst hq
      simp [dGetNext]
    · intro r w2 hcall
      cases wq with
      | nil =>
        simp [dGetNext] at hcall
        obtain ⟨hr, hw⟩ := hcall
        subst hw
        exact ⟨rfl, pr, rfl⟩
      | cons recorded rest =>
        rcases ha : applyReplay pr true recorded with ⟨pr2, fin2⟩
        have hfin : fin2 = true := by
          have h2 := applyReplay_preserves_true pr recorded
          rw [ha] at h2
          exact h2
        subst hfin
        simp [dGetNext, ha] at hcall
        obtain ⟨hr, hw⟩ := hcall
        subst hw
        exact ⟨rfl, pr2, rfl⟩

theorem claim_C4_witness :
    (c4world.state = .replay [sampleMessage] sampleConfig [] [sampleDelta] true ∧
      c4world.replayQueue = []) ∧
      dGetNext nullBackend c4world = .ok (none, c4world) :=
  ⟨⟨rfl, rfl⟩,
    (claim_C4 nullBackend c4world [sampleMessage] sampleConfig [] [sampleDelta] rfl).1 rfl⟩

lemma goodTrace_cons (r : Option (List StreamEvent)) (t : LiveTrace)
    (h : goodTrace (r :: t) = true) :
    (∀ l, r = some l → l ≠ []) ∧ goodTrace t = true := by
  unfold goodTrace at h
  rw [List.all_cons, Bool.and_eq_true] at h
  obtain ⟨h1, h2⟩ := h
  refine ⟨?_, h2⟩
  intro l hl
  subst hl
  simp only [Bool.not_eq_true'] at h1
  exact fun hnil => by simp [hnil] at h1

lemma goodTrace_next (t : LiveTrace) (h : goodTrace t = true) :
    (∀ l, (traceNext t).1 = some l → l ≠ []) ∧ goodTrace (traceNext t).2 = true := by
  cases t with
  | nil =>
    refine ⟨?_, h⟩
    intro l hl
    exact Option.noConfusion hl
  | cons r rest => exact goodTrace_cons r rest h

lemma good_dGetNext (b : BackendModel) (w : DWorld) (r : Option (List StreamEvent))
    (w2 : DWorld)
    (hb : ∀ msgs cfg, goodTrace (b msgs cfg) = true)
    (hw : goodWorld w = true)
    (hcall : dGetNext b w = .ok (r, w2)) :
    (∀ l, r = some l → l ≠ []) ∧ goodWorld w2 = true := by
  cases w with
  | mk ws wo wq wc wn wh =>
    unfold goodWorld at hw
    dsimp only at hw
    rw [Bool.and_eq_true] at hw
    obtain ⟨hwq, hwst⟩ := hw
    cases wq with
    | nil =>
      cases ws with
      | live stream pollables =>
        rcases htr : traceNext stream with ⟨result, rest⟩
        simp [dGetNext, htr] at hcall
        obtain ⟨hr, hw2⟩ := hcall
        subst hr
        subst hw2
        have hg := goodTrace_next stream hwst
        rw [htr] at hg
        exact ⟨hg.1, by simpa [goodWorld, hwq] using hg.2⟩
      | replay orig cfg pb pr fin =>
        cases fin with
        | true =>
          simp [dGetNext] at hcall
          obtain ⟨hr, hw2⟩ := hcall
          subst hr
          subst hw2
          exact ⟨fun l hl => Option.noConfusion hl, by simp [goodWorld, hwq]⟩
        | false =>
          rcases htr : traceNext (b (retryPrompt orig pr) cfg) with ⟨result, rest⟩
          simp [dGetNext, htr] at hcall
          obtain ⟨hr, hw2⟩ := hcall
          subst hr
          subst hw2
          have hg := goodTrace_next (b (retryPrompt orig pr) cfg)
            (hb (retryPrompt orig pr) cfg)
          rw [htr] at hg
          exact ⟨hg.1, by simpa [goodWorld, hwq] using hg.2⟩
    | cons recorded rest =>
      cases ws with
      | live stream pollables => simp [dGetNext] at hcall
      | replay orig cfg pb pr fin =>
        rcases ha : applyReplay pr fin recorded with ⟨pr2, fin2⟩
        simp [dGetNext, ha] at hcall
        obtain ⟨hr, hw2⟩ := hcall
        subst hr
        subst hw2
        have hg := goodTrace_cons recorded rest hwq
        exact ⟨hg.1, by simpa [goodWorld] using hg.2⟩

lemma good_dSubscribe (w : DWorld) (hw : goodWorld w = true) :
    goodWorld (dSubscribe w) = true := by
  cases w with
  | mk ws wo wq wc wn wh =>
    cases ws with
    | live stream pollables => simpa [dSubscribe, goodWorld] using hw
    | replay orig cfg pb pr fin => simpa [dSubscribe, goodWorld] using hw

lemma good_dBlockingLoop (b : BackendModel) (fuel : Nat) (w : DWorld)
    (events : List StreamEvent) (w2 : DWorld)
    (hb : ∀ msgs cfg, goodTrace (b msgs cfg) = true)
    (hw : goodWorld w = true)
    (hres : dBlockingLoop b fuel w = .ok (some (events, w2))) :
    events ≠ [] := by
  induction fuel generalizing w with
  | zero => simp [dBlockingLoop] at hres
  | succ n ih =>
    unfold dBlockingLoop at hres
    cases hcall : dGetNext b w with
    | error e => rw [hcall] at hres; exact Except.noConfusion hres
    | ok p =>
      rcases p with ⟨r, w3⟩
      have hg := good_dGetNext b w r w3 hb hw hcall
      rw [hcall] at hres
      cases r with
      | some evs =>
        simp at hres
        obtain ⟨he, hw3⟩ := hres
        subst he
        exact hg.1 _ rfl
      | none =>
        simp at hres
        exact ih w3 hg.2 hres

/-- Claim C6: whenever `blocking_get_next` returns a batch, that batch is
non-empty, given the specification-modelled property of the underlying
provider stream and of the recorded log entries that any produced batch is
non-empty (an empty terminal state is signaled by a `Finish`/`Error` event
inside a batch, not by an empty batch). -/
theorem claim_C6 (b : BackendModel) (fuel : Nat) (w : DWorld)
    (events : List StreamEvent) (w2 : DWorld)
    (hb : ∀ msgs cfg, goodTrace (b msgs cfg) = true)
    (hw : goodWorld w = true)
    (hres : dBlockingGetNext b fuel w = .ok (some (events, w2))) :
    events ≠ [] := by
  unfold dBlockingGetNext at hres
  by_cases hsub : w.hasSubscription
  · rw [if_pos hsub] at hres
    exact good_dBlockingLoop b fuel w events w2 hb hw hres
  · rw [if_neg hsub] at hres
    exact good_dBlockingLoop b fuel (dSubscribe w) events w2 hb (good_dSubscribe w hw) hres

theorem claim_C6_witness :
    ((∀ msgs cfg, goodTrace (nullBackend msgs cfg) = true) ∧
      goodWorld c1world = true ∧
      dBlockingGetNext nullBackend 1 c1world =
        .ok (some ([sampleEvent],
          { c1world with state := .live [] [], oplog := [some [sampleEvent]],
                         hasSubscription := true }))) ∧
      [sampleEvent] ≠ [] :=
  ⟨⟨fun _ _ => rfl, rfl, rfl⟩,
    claim_C6 nullBackend 1 c1world [sampleEvent] _ (fun _ _ => rfl) rfl rfl⟩

lemma breakAt_some_parts (c : Char) (l : List Char) :
    ∀ a b, breakAt c l = some (a, b) → l = a ++ c :: b := by
  induction l with
  | nil => intro a b h; exact Option.noConfusion h
  | cons x xs ih =>
    intro a b h
    by_cases hx : x = c
    · rw [breakAt, if_pos hx] at h
      obtain ⟨ha, hb⟩ := Prod.mk.injEq .. ▸ Option.some.injEq .. ▸ h
      subst hx
      rw [← ha, ← hb]
      simp
    · rw [breakAt, if_neg hx] at h
      cases hxs : breakAt c xs with
      | none => rw [hxs] at h; exact Option.noConfusion h
      | some p =>
        rcases p with ⟨a1, b1⟩
        rw [hxs] at h
        simp only [Option.map_some'] at h
        obtain ⟨ha, hb⟩ := Prod.mk.injEq .. ▸ Option.some.injEq .. ▸ h
        rw [← ha, ← hb]
        simpa using ih a1 b1 hxs

lemma breakAt_none_of_not_mem (c : Char) (l : List Char) (h : c ∉ l) :
    breakAt c l = none := by
  induction l with
  | nil => rfl
  | cons x xs ih =>
    have hx : ¬ x = c := fun hxc => h (hxc ▸ List.mem_cons_self x xs)
    rw [breakAt, if_neg hx, ih (fun hm => h (List.mem_cons_of_mem x hm))]
    rfl

lemma breakAt_append (c : Char) (l r : List Char) (h : c ∉ l) :
    breakAt c (l ++ c :: r) = some (l, r) := by
  induction l with
  | nil => simp [breakAt]
  | cons x xs ih =>
    have hx : ¬ x = c := fun hxc => h (hxc ▸ List.mem_cons_self x xs)
    rw [List.cons_append, breakAt, if_neg hx, ih (fun hm => h (List.mem_cons_of_mem x hm))]
    rfl

lemma tryParseLine_rest_le (buf : List Char) :
    (tryParseLine buf).2.length ≤ buf.length := by
  unfold tryParseLine
  cases hb : breakAt '\n' buf with
  | none => simp
  | some p =>
    rcases p with ⟨before, rest⟩
    have hparts := breakAt_some_parts '\n' buf before rest hb
    subst hparts
    by_cases hl : trimChars before = [] <;> simp [hl, List.length_append] <;> omega

lemma tryParseLine_some_lt (buf line rest : List Char)
    (h : tryParseLine buf = (some line, rest)) : rest.length < buf.length := by
  unfold tryParseLine at h
  cases hb : breakAt '\n' buf with
  | none =>
    rw [hb] at h
    simp at h
  | some p =>
    rcases p with ⟨before, r2⟩
    rw [hb] at h
    by_cases hl : trimChars before = []
    · simp [hl] at h
    · simp [hl] at h
      obtain ⟨hline, hrest⟩ := h
      have hparts := breakAt_some_parts '\n' buf before r2 hb
      subst hparts
      rw [← hrest]
      simp [List.length_append]
      omega

lemma trimChars_nil : trimChars [] = [] := rfl

lemma ndReadLoop_measure (lastId : List Char) :
    ∀ (inp : List (List Char)) (buffer : List Char) (ev : Option MsgEvent)
      (buf2 : List Char) (inp2 : List (List Char)) (st2 : NdState),
      ndReadLoop lastId buffer inp = (ev, buf2, inp2, st2) →
      buf2.length + (inp2.map List.length).sum + inp2.length ≤
          buffer.length + (inp.map List.length).sum + inp.length ∧
        (ev.isSome = true →
          buf2.length + (inp2.map List.length).sum + inp2.length <
            buffer.length + (inp.map List.length).sum + inp.length) := by
  intro inp
  induction inp with
  | nil =>
    intro buffer ev buf2 inp2 st2 h
    unfold ndReadLoop at h
    by_cases hr : trimChars buffer = []
    · rw [if_pos hr] at h
      obtain ⟨he, hb, hi, hs⟩ := by simpa using h.symm
      subst he
      subst hb
      subst hi
      simp
    · rw [if_neg hr] at h
      obtain ⟨he, hb, hi, hs⟩ := by simpa using h.symm
      subst he
      subst hb
      subst hi
      have hbuf : buffer ≠ [] := fun hn => hr (hn ▸ trimChars_nil)
      have hpos : 0 < buffer.length := List.length_pos.mpr hbuf
      simp
      omega
  | cons chunk chunks ih =>
    intro buffer ev buf2 inp2 st2 h
    unfold ndReadLoop at h
    by_cases hc : chunk = []
    · rw [if_pos hc] at h
      have hrec := ih buffer ev buf2 inp2 st2 h
      subst hc
      simp at hrec ⊢
      omega
    · rw [if_neg hc] at h
      cases htp : tryParseLine (buffer ++ chunk) with
      | mk evLine rest =>
        rw [htp] at h
        cases evLine with
        | some line =>
          have hlt := tryParseLine_some_lt (buffer ++ chunk) line rest htp
          rw [List.length_append] at hlt
          obtain ⟨he, hb, hi, hs⟩ := by simpa using h.symm
          subst hb
          subst hi
          simp
          omega
        | none =>
          simp only at h
          have hrec := ih rest ev buf2 inp2 st2 h
          have hle : rest.length ≤ buffer.length + chunk.length := by
            have h3 := tryParseLine_rest_le (buffer ++ chunk)
            rw [htp, List.length_append] at h3
            exact h3
          simp at hrec ⊢
          omega

lemma ndPollNext_some_lt (s : NdJson) (e : MsgEvent) (s2 : NdJson)
    (h : ndPollNext s = (some e, s2)) : ndMeasure s2 < ndMeasure s := by
  unfold ndPollNext at h
  cases htp : tryParseLine s.buffer with
  | mk evLine rest =>
    rw [htp] at h
    cases evLine with
    | some line =>
      simp only at h
      obtain ⟨he, hs2⟩ := Prod.mk.inj h
      rw [← hs2]
      unfold ndMeasure
      simp
      exact tryParseLine_some_lt s.buffer line rest htp
    | none =>
      simp only at h
      by_cases hterm : s.state = .terminated
      · rw [if_pos hterm] at h
        exact absurd h (by simp)
      · rw [if_neg hterm] at h
        obtain ⟨ev2, buf2, inp2, st2, hrl⟩ :
            ∃ ev2 buf2 inp2 st2,
              ndReadLoop s.lastEventId rest s.input = (ev2, buf2, inp2, st2) :=
          ⟨_, _, _, _, rfl⟩
        rw [hrl] at h
        simp only at h
        obtain ⟨he, hs2⟩ := Prod.mk.inj h
        have hrec := ndReadLoop_measure s.lastEventId s.input rest ev2 buf2 inp2 st2 hrl
        have hstrict := hrec.2 (by rw [he]; rfl)
        have hle : rest.length ≤ s.buffer.length := by
          have h3 := tryParseLine_rest_le s.buffer
          rw [htp] at h3
          exact h3
        rw [← hs2]
        unfold ndMeasure
        simp
        omega

lemma ndDrainF_stable (f : Nat) :
    ∀ (g : Nat) (s : NdJson), ndMeasure s < f → ndMeasure s < g →
      ndDrainF f s = ndDrainF g s := by
  induction f with
  | zero => intro g s h; exact absurd h (Nat.not_lt_zero _)
  | succ n ih =>
    intro g s hf hg
    cases g with
    | zero => exact absurd hg (Nat.not_lt_zero _)
    | succ m =>
      cases hp : ndPollNext s with
      | mk ev s2 =>
        cases ev with
        | none =>
          unfold ndDrainF
          simp only [hp]
        | some e =>
          have hlt := ndPollNext_some_lt s e s2 hp
          unfold ndDrainF
          simp only [hp]
          rw [ih m s2 (by omega) (by omega)]

lemma ndDrainF_succ (n : Nat) (s : NdJson) :
    ndDrainF (n + 1) s =
      match ndPollNext s with
      | (some e, s2) => e.data :: ndDrainF n s2
      | (none, _) => [] := rfl

lemma ndDrain_some (s : NdJson) (e : MsgEvent) (s2 : NdJson)
    (h : ndPollNext s = (some e, s2)) : ndDrain s = e.data :: ndDrain s2 := by
  have hlt := ndPollNext_some_lt s e s2 h
  unfold ndDrain
  rw [ndDrainF_succ, h]
  show e.data :: ndDrainF (ndMeasure s) s2 = e.data :: ndDrainF (ndMeasure s2 + 1) s2
  rw [ndDrainF_stable (ndMeasure s) (ndMeasure s2 + 1) s2 hlt (Nat.lt_succ_self _)]

lemma ndDrain_none (s : NdJson) (s2 : NdJson)
    (h : ndPollNext s = (none, s2)) : ndDrain s = [] := by
  unfold ndDrain
  rw [ndDrainF_succ, h]

lemma ndDrain_congr (s s2 : NdJson) (h : ndPollNext s = ndPollNext s2) :
    ndDrain s = ndDrain s2 := by
  cases hp : ndPollNext s2 with
  | mk ev s3 =>
    cases ev with
    | none => rw [ndDrain_none s s3 (h.trans hp), ndDrain_none s2 s3 hp]
    | some e => rw [ndDrain_some s e s3 (h.trans hp), ndDrain_some s2 e s3 hp]

lemma ndPollNext_feed (st : NdState) (hst : st ≠ NdState.terminated)
    (lastId chunk : List Char) :
    ndPollNext ⟨[], st, lastId, [chunk]⟩ =
      ndPollNext ⟨chunk, NdState.started, lastId, []⟩ := by
  by_cases hc : chunk = []
  · subst hc
    unfold ndPollNext
    dsimp [tryParseLine, breakAt, ndReadLoop]
    rw [if_neg hst]
  · unfold ndPollNext
    dsimp only
    rw [show tryParseLine [] = ((none : Option (List Char)), ([] : List Char)) from rfl]
    dsimp only
    rw [if_neg hst]
    unfold ndReadLoop
    rw [if_neg hc, List.nil_append]
    cases htp : tryParseLine chunk with
    | mk evc restc =>
      cases evc with
      | some line => dsimp only
      | none =>
        dsimp only
        rw [if_neg (show NdState.started ≠ NdState.terminated by simp)]
        unfold ndReadLoop
        by_cases htr : trimChars restc = [] <;> simp [htr]

lemma ndSalvage (buf lastId : List Char) (hnl : '\n' ∉ buf)
    (htrim : trimChars buf ≠ []) :
    ndPollNext ⟨buf, NdState.started, lastId, []⟩ =
      (some (mkNdEvent (trimChars buf) lastId), ⟨[], NdState.terminated, lastId, []⟩) := by
  have htp : tryParseLine buf = (none, buf) := by
    unfold tryParseLine
    rw [breakAt_none_of_not_mem '\n' buf hnl]
  unfold ndPollNext
  dsimp only
  rw [htp]
  dsimp only
  unfold ndReadLoop
  rw [if_neg htrim]
  rw [if_neg (show NdState.started ≠ NdState.terminated by simp)]

lemma ndRun_trail (lastId : List Char) :
    ∀ lines : List (List Char), (∀ l ∈ lines, trimChars l ≠ [] ∧ '\n' ∉ l) →
      ndDrain ⟨joinNlT lines, NdState.started, lastId, []⟩ = lines.map trimChars := by
  intro lines
  induction lines with
  | nil =>
    intro h
    exact ndDrain_none _ ⟨[], NdState.terminated, lastId, []⟩ rfl
  | cons l ls ih =>
    intro h
    have hl := h l (List.mem_cons_self l ls)
    have hb : breakAt '\n' (joinNlT (l :: ls)) = some (l, joinNlT ls) :=
      breakAt_append '\n' l (joinNlT ls) hl.2
    have htp : tryParseLine (joinNlT (l :: ls)) = (some (trimChars l), joinNlT ls) := by
      unfold tryParseLine
      rw [hb]
      dsimp only
      rw [if_neg hl.1]
    have hpoll : ndPollNext ⟨joinNlT (l :: ls), NdState.started, lastId, []⟩ =
        (some (mkNdEvent (trimChars l) lastId),
          ⟨joinNlT ls, NdState.started, lastId, []⟩) := by
      unfold ndPollNext
      dsimp only
      rw [htp]
    rw [ndDrain_some _ _ _ hpoll, ih (fun l2 hm => h l2 (List.mem_cons_of_mem l hm))]
    rfl

lemma ndRun_noTrail (lastId : List Char) :
    ∀ lines : List (List Char), (∀ l ∈ lines, trimChars l ≠ [] ∧ '\n' ∉ l) →
      ndDrain ⟨joinNl lines, NdState.started, lastId, []⟩ = lines.map trimChars := by
  intro lines
  induction lines with
  | nil =>
    intro h
    exact ndDrain_none _ ⟨[], NdState.terminated, lastId, []⟩ rfl
  | cons l ls ih =>
    intro h
    have hl := h l (List.mem_cons_self l ls)
    cases ls with
    | nil =>
      have hpoll := ndSalvage l lastId hl.2 hl.1
      rw [show joinNl [l] = l from rfl]
      rw [ndDrain_some _ _ _ hpoll]
      rw [ndDrain_none ⟨[], NdState.terminated, lastId, []⟩
        ⟨[], NdState.terminated, lastId, []⟩ rfl]
      rfl
    | cons l2 ls2 =>
      have hb : breakAt '\n' (joinNl (l :: l2 :: ls2)) = some (l, joinNl (l2 :: ls2)) :=
        breakAt_append '\n' l (joinNl (l2 :: ls2)) hl.2
      have htp : tryParseLine (joinNl (l :: l2 :: ls2)) =
          (some (trimChars l), joinNl (l2 :: ls2)) := by
        unfold tryParseLine
        rw [hb]
        dsimp only
        rw [if_neg hl.1]
      have hpoll : ndPollNext ⟨joinNl (l :: l2 :: ls2), NdState.started, lastId, []⟩ =
          (some (mkNdEvent (trimChars l) lastId),
            ⟨joinNl (l2 :: ls2), NdState.started, lastId, []⟩) := by
        unfold ndPollNext
        dsimp only
        rw [htp]
      rw [ndDrain_some _ _ _ hpoll, ih (fun l2 hm => h l2 (List.mem_cons_of_mem l hm))]
      rfl

/-- Claim C9: feeding the NDJSON parser a stream of newline-separated
non-blank lines yields exactly one Message Event per line, whether or not
the final line is newline-terminated; and at end-of-stream a buffered
remainder that does not trim to nothing is emitted as one final Message
Event, with the parser then terminated. -/
theorem claim_C9 (lines : List (List Char))
    (h : ∀ l ∈ lines, trimChars l ≠ [] ∧ '\n' ∉ l) :
    ndDrain (ndInit [joinNl lines]) = lines.map trimChars ∧
    ndDrain (ndInit [joinNlT lines]) = lines.map trimChars ∧
    (∀ buf lastId : List Char, '\n' ∉ buf → trimChars buf ≠ [] →
      ndPollNext ⟨buf, NdState.started, lastId, []⟩ =
        (some (mkNdEvent (trimChars buf) lastId),
          ⟨[], NdState.terminated, lastId, []⟩)) := by
  refine ⟨?_, ?_, ?_⟩
  · rw [show ndInit [joinNl lines] = ⟨[], NdState.notStarted, [], [joinNl lines]⟩ from rfl]
    rw [ndDrain_congr _ _ (ndPollNext_feed NdState.notStarted (by simp) [] (joinNl lines))]
    exact ndRun_noTrail [] lines h
  · rw [show ndInit [joinNlT lines] = ⟨[], NdState.notStarted, [], [joinNlT lines]⟩ from rfl]
    rw [ndDrain_congr _ _ (ndPollNext_feed NdState.notStarted (by simp) [] (joinNlT lines))]
    exact ndRun_trail [] lines h
  · intro buf lastId hnl htrim
    exact ndSalvage buf lastId hnl htrim

theorem claim_C9_witness :
    (∀ l ∈ [['a', 'b'], ['c', 'd']], trimChars l ≠ [] ∧ '\n' ∉ l) ∧
    ndDrain (ndInit [joinNl [['a', 'b'], ['c', 'd']]]) =
      [['a', 'b'], ['c', 'd']].map trimChars ∧
    ndDrain (ndInit [joinNlT [['a', 'b'], ['c', 'd']]]) =
      [['a', 'b'], ['c', 'd']].map trimChars :=
  ⟨by decide, (claim_C9 [['a', 'b'], ['c', 'd']] (by decide)).1,
    (claim_C9 [['a', 'b'], ['c', 'd']] (by decide)).2.1⟩
